import Mathlib

/-!
Verification of the ProDy atomic data-store module (`prody/atomic/atomgroup.py`)
against its natural-language specification.

The Python classes `AtomGroup` (single coordinate set) and `MCAtomGroup`
(multiple coordinate sets) are embedded shallowly: object state becomes a Lean
structure, each method becomes a function from the state (and the call's
arguments) to either a new state or an error paired with the state as the
raise left it (Python exceptions do not roll back mutations made before the
raise).  Numpy arrays are embedded as lists: a rank-1 array of scalars is a
`List Int` (scalar payloads of every dtype are coded as integers, since no
claim computes on the payloads themselves), a rank-2 array is a `List Row`,
and a rank-3 coordinate stack is a `List Frame`.  `np.ndarray.argsort` on a
column (default `kind='quicksort'`, which numpy documents as not stable) is
modelled by quantifying over every sorter that meets the documented contract —
the rows permuted into non-decreasing key order — with the stable insertion
sort as one concrete instance, the algorithm numpy actually runs on arrays of
fewer than 16 elements.
-/

/-- Scalar element kinds of the field registry: bool, int, float, text. -/
inductive DType where
  | dbool
  | dint
  | dfloat
  | dtext
  deriving Repr, DecidableEq

/-- One row of a rank-2 array (a rank-1 field array stores singleton rows). -/
abbrev Row := List Int

/-- A rank-2 coordinate array of shape [n_atoms, 3]. -/
abbrev Frame := List Row

/-- A rank-3 coordinate array of shape [n_csets, n_atoms, 3]. -/
abbrev CoordStack := List Frame

/-- A typed data array: dtype, number of dimensions, and the rows. -/
structure DataArr where
  dtype : DType
  ndim : Nat
  vals : List Row
  deriving Repr, DecidableEq

/-- The Python exception kinds raised by the module. -/
inductive PyErr where
  | typeError (msg : String)
  | valueError (msg : String)
  | indexError (msg : String)
  | attributeError (msg : String)
  deriving Repr, DecidableEq

/-- A coordinate argument: a rank-2 `[n, 3]` or rank-3 `[k, n, 3]` ndarray. -/
inductive CoordsInput where
  | rank2 (m : Frame)
  | rank3 (cs : CoordStack)
  deriving Repr, DecidableEq

/-- Every row of the frame has length 3 (shape `[n, 3]`). -/
def frameOk (f : Frame) : Bool :=
  f.all (fun r => r.length == 3)

/-- Every frame is an `[n, 3]` block of the same atom count (rectangular). -/
def stackOk (cs : CoordStack) : Bool :=
  cs.all (fun f => frameOk f) && cs.all (fun f => f.length == (cs.headD []).length)

/-- `shape[-2]` of a coordinate stack: the atom count of its frames. -/
def stackAtoms (cs : CoordStack) : Nat :=
  (cs.headD []).length

/-- Modelled from the spec: the external coordinate validator `validateCoords`
(spec section 6, `checkCoords` in `prody/tools.py`, which is not under `src/`)
called with `multi_snapshot = false`: the input must be a rank-2 array of
shape `[n, 3]`, and when the expected atom count is nonzero the row count must
equal it. -/
def checkCoordsSingle (input : CoordsInput) (n_atoms : Nat) : Except PyErr Frame :=
  match input with
  | .rank3 _ => .error (.valueError "coords.ndim must be 2")
  | .rank2 m =>
    if !frameOk m then
      .error (.valueError "coords.shape must be (n_atoms, 3)")
    else if n_atoms ≠ 0 && m.length ≠ n_atoms then
      .error (.valueError "coords size does not match number of atoms")
    else
      .ok m

/-- Modelled from the spec: the external coordinate validator `validateCoords`
(spec section 6) called with `multi_snapshot = true` and `allow_reshape =
true`, as the multi-snapshot store always does: a rank-2 `[n, 3]` input is
reshaped to `[1, n, 3]`, a rank-3 input must be a rectangular `[k, n, 3]`
stack, and when the expected atom count is nonzero the atom dimension must
equal it. -/
def checkCoordsCset (input : CoordsInput) (n_atoms : Nat) : Except PyErr CoordStack :=
  match input with
  | .rank2 m =>
    if !frameOk m then
      .error (.valueError "coords.shape must be ([n_csets,] n_atoms, 3)")
    else if n_atoms ≠ 0 && m.length ≠ n_atoms then
      .error (.valueError "coords size does not match number of atoms")
    else
      .ok [m]
  | .rank3 cs =>
    if !stackOk cs then
      .error (.valueError "coords.shape must be ([n_csets,] n_atoms, 3)")
    else if n_atoms ≠ 0 && stackAtoms cs ≠ n_atoms then
      .error (.valueError "coords size does not match number of atoms")
    else
      .ok cs

/-- Replace the binding of `k` (or append it) in an association list; embeds
assignment to a Python dict entry. -/
def setAssoc (d : List (String × DataArr)) (k : String) (v : DataArr) :
    List (String × DataArr) :=
  match d with
  | [] => [(k, v)]
  | (k0, v0) :: rest => if k0 = k then (k, v) :: rest else (k0, v0) :: setAssoc rest k v

/-- Look up a key in the data dict (absent keys and keys bound to Python
`None` are both `none` here; the source initialises every registered field to
`None` and `dict.get` returns `None` for missing keys alike). -/
def getAssoc (d : List (String × DataArr)) (k : String) : Option DataArr :=
  match d with
  | [] => none
  | (k0, v0) :: rest => if k0 = k then some v0 else getAssoc rest k

/-- State of the single-coordinate-set store `AtomGroup`.  Fields mirror the
attributes set in `AtomGroup.__init__`; `clock` is the explicit version
counter standing in for the wall-clock `time()` calls, and `timestamp` and
`kdtree` are the version marker and the opaque spatial-index cache slot. -/
structure AtomGroup where
  title : String := "Unnamed"
  n_atoms : Nat := 0
  coords : Option Frame := none
  acsi : Option Nat := none
  data : List (String × DataArr) := []
  bonds : Option (List (Int × Int)) := none
  bmap : Option (List (List Nat)) := none
  sn2i : Option (List Int) := none
  timestamp : Option Nat := none
  kdtree : Option Unit := none
  clock : Nat := 0
  deriving Repr, DecidableEq

/-- `AtomGroup._setTimeStamp`: record the mutation time and discard the cached
spatial index. -/
def AtomGroup.setTimeStamp (st : AtomGroup) : AtomGroup :=
  { st with timestamp := some st.clock, kdtree := none, clock := st.clock + 1 }

/-- `AtomGroup.setCoords`: validate the `[n, 3]` array, fix the atom count on
first assignment, replace the coordinate array, set the active index to 0 and
bump the version. -/
def AtomGroup.setCoords (st : AtomGroup) (input : CoordsInput) :
    Except (PyErr × AtomGroup) AtomGroup :=
  match checkCoordsSingle input st.n_atoms with
  | .error e => .error (e, st)
  | .ok m =>
    let st := if st.n_atoms = 0 then { st with n_atoms := m.length } else st
    .ok (AtomGroup.setTimeStamp { st with coords := some m, acsi := some 0 })

/-- Row sort of one bond pair (`bonds.sort(1)`): smaller index first. -/
def pairMin (p : Int × Int) : Int × Int :=
  (min p.1 p.2, max p.1 p.2)

/-- Ordering of rows by a column key. -/
def leKey (key : (Int × Int) → Int) (p q : Int × Int) : Prop := key p ≤ key q

instance (key : (Int × Int) → Int) : DecidableRel (leKey key) :=
  fun p q => inferInstanceAs (Decidable (key p ≤ key q))

instance (key : (Int × Int) → Int) : IsTotal (Int × Int) (leKey key) :=
  ⟨fun p q => Int.le_total (key p) (key q)⟩

instance (key : (Int × Int) → Int) : IsTrans (Int × Int) (leKey key) :=
  ⟨fun _ _ _ h1 h2 => le_trans h1 h2⟩

/-- The contract of one `argsort`-and-reindex pass of `setBonds` along a
column key, as numpy documents it: the rows permuted into non-decreasing key
order.  The default `kind='quicksort'` (introsort) is documented as not
stable, and its ordering of rows with equal keys is implementation-defined,
so the embedding takes the pass as an arbitrary function satisfying exactly
the documented contract instead of fixing a tie order. -/
structure ColSort where
  sort : ((Int × Int) → Int) → List (Int × Int) → List (Int × Int)
  sorted_sort : ∀ (key : (Int × Int) → Int) (l : List (Int × Int)),
    (sort key l).Sorted (leKey key)
  perm_sort : ∀ (key : (Int × Int) → Int) (l : List (Int × Int)),
    List.Perm (sort key l) l

/-- One admissible argsort implementation: the stable insertion sort, which
is the algorithm numpy's introsort actually runs on arrays of fewer than 16
elements. -/
def insertionColSort : ColSort where
  sort key l := l.insertionSort (leKey key)
  sorted_sort key l := List.sorted_insertionSort (leKey key) l
  perm_sort key l := List.perm_insertionSort (leKey key) l

/-- The two-pass composite sort of `setBonds` under an admissible argsort
implementation: sort the rows by the second column, then by the first. -/
def twoPassSort (c : ColSort) (l : List (Int × Int)) : List (Int × Int) :=
  c.sort (fun p => p.1) (c.sort (fun p => p.2) l)

/-- All entries of the pair list, flattened (for `bonds.min()`, `bonds.max()`,
since `arr.min() < 0` iff some entry is negative and `arr.max() >= n` iff some
entry is at least `n`). -/
def flatPairs (l : List (Int × Int)) : List Int :=
  l.foldr (fun p acc => p.1 :: p.2 :: acc) []

/-- Modelled from the spec: `evalBonds` (defined in `bond.py`, which is not
under `src/`) derives from the canonical pair list the adjacency structure
mapping each atom to the indices of the bonds touching it, and the per-atom
bond count stored as the `numbonds` field (spec section 4.3 step 3). -/
def evalBonds (bonds : List (Int × Int)) (n : Nat) : List (List Nat) × DataArr :=
  let bmap := (List.range n).map (fun i =>
    bonds.enum.filterMap (fun bi =>
      if bi.2.1 = (i : Int) ∨ bi.2.2 = (i : Int) then some bi.1 else none))
  let counts := (List.range n).map (fun i =>
    [(bonds.countP (fun p => p.1 == (i : Int) || p.2 == (i : Int)) : Int)])
  (bmap, ⟨.dint, 1, counts⟩)

/-- `AtomGroup.setBonds`: validate the pair list, canonicalize it with the row
sort and the two-pass composite sort, and store the pair list together with
the derived adjacency map and `numbonds` field.  The input is a Python list of
pairs; `np.array` of an empty list is 1-dimensional, so an empty input fails
the `ndim` check, and a nonempty list of pairs always has shape `(n, 2)`.
The two `argsort` passes are taken as a `ColSort` argument, since numpy fixes
neither pass's ordering of tied keys. -/
def AtomGroup.setBonds (c : ColSort) (st : AtomGroup) (input : List (Int × Int)) :
    Except (PyErr × AtomGroup) AtomGroup :=
  if input.isEmpty then
    .error (.valueError "bonds.ndim must be 2", st)
  else if (flatPairs input).any (fun x => decide (x < 0)) then
    .error (.valueError "negative atom indices are not valid", st)
  else if (flatPairs input).any (fun x => decide ((st.n_atoms : Int) ≤ x)) then
    .error (.valueError "atom indices are out of range", st)
  else
    let bonds := twoPassSort c (input.map pairMin)
    let eb := evalBonds bonds st.n_atoms
    .ok { st with bmap := some eb.1,
                  data := setAssoc st.data "numbonds" eb.2,
                  bonds := some bonds }

/-- The stored bond list of a `setBonds` result, if the call succeeded. -/
def bondsOf (r : Except (PyErr × AtomGroup) AtomGroup) : Option (List (Int × Int)) :=
  match r with
  | .ok s => s.bonds
  | .error _ => none

/-- Lexicographic order on pairs: primarily by first index, secondarily by
second index. -/
def lexLe (p q : Int × Int) : Prop :=
  p.1 < q.1 ∨ (p.1 = q.1 ∧ p.2 ≤ q.2)

instance : DecidableRel lexLe := fun p q =>
  inferInstanceAs (Decidable (p.1 < q.1 ∨ (p.1 = q.1 ∧ p.2 ≤ q.2)))

theorem lexLe_trans {p q r : Int × Int} (h1 : lexLe p q) (h2 : lexLe q r) : lexLe p r := by
  rcases h1 with h1 | ⟨h1, h1'⟩ <;> rcases h2 with h2 | ⟨h2, h2'⟩
  · exact Or.inl (lt_trans h1 h2)
  · exact Or.inl (h2 ▸ h1)
  · exact Or.inl (h1 ▸ h2)
  · exact Or.inr ⟨h1.trans h2, h1'.trans h2'⟩

/-- Inserting `a` by first component into a lexicographically sorted list stays
lexicographically sorted, provided `a`'s second component is at most that of
every element sharing its first component. -/
theorem orderedInsert_lex_sorted (a : Int × Int) :
    ∀ s : List (Int × Int), s.Sorted lexLe →
      (∀ x ∈ s, a.1 = x.1 → a.2 ≤ x.2) →
      (s.orderedInsert (leKey (fun p => p.1)) a).Sorted lexLe := by
  intro s
  induction s with
  | nil => intro _ _; simp
  | cons y s' ih =>
    intro hs hm
    rw [List.sorted_cons] at hs
    obtain ⟨hy, hs'⟩ := hs
    by_cases hfst : leKey (fun p => p.1) a y
    · rw [List.orderedInsert, if_pos hfst]
      rw [List.sorted_cons]
      constructor
      · intro z hz
        have hay : lexLe a y := by
          rcases lt_or_eq_of_le hfst with h | h
          · exact Or.inl h
          · exact Or.inr ⟨h, hm y (List.mem_cons_self y s') h⟩
        rcases List.mem_cons.mp hz with rfl | hz'
        · exact hay
        · exact lexLe_trans hay (hy z hz')
      · exact List.sorted_cons.mpr ⟨hy, hs'⟩
    · rw [List.orderedInsert, if_neg hfst]
      rw [List.sorted_cons]
      constructor
      · intro z hz
        rcases (List.mem_orderedInsert (leKey (fun p => p.1))).mp hz with rfl | hz'
        · have : y.1 < z.1 := lt_of_not_le hfst
          exact Or.inl this
        · exact hy z hz'
      · exact ih hs' (fun x hx h => hm x (List.mem_cons_of_mem y hx) h)

/-- The radix property of the composite sort: a stable sort by first component
of a list already sorted by second component is sorted lexicographically. -/
theorem insertionSort_lex_sorted :
    ∀ l : List (Int × Int), l.Sorted (leKey (fun p => p.2)) →
      (l.insertionSort (leKey (fun p => p.1))).Sorted lexLe := by
  intro l
  induction l with
  | nil => intro _; simp
  | cons a t ih =>
    intro hl
    rw [List.sorted_cons] at hl
    obtain ⟨ha, ht⟩ := hl
    rw [List.insertionSort]
    refine orderedInsert_lex_sorted a _ (ih ht) ?_
    intro x hx _
    exact ha x ((List.mem_insertionSort (leKey (fun p => p.1))).mp hx)

/-- Every admissible two-pass composite sort permutes its input and leaves
the result sorted by first component; no more is guaranteed in general,
because the second pass's tie order is implementation-defined. -/
theorem twoPassSort_fst_sorted_perm (c : ColSort) (l : List (Int × Int)) :
    (twoPassSort c l).Sorted (leKey (fun p => p.1)) ∧
    List.Perm (twoPassSort c l) l := by
  constructor
  · exact c.sorted_sort (fun p => p.1) _
  · exact (c.perm_sort (fun p => p.1) _).trans (c.perm_sort (fun p => p.2) l)

/-- With the stable insertion-sort instance the composite sort is moreover
lexicographically sorted: the radix property that the specification's
mandated stable composite sort would guarantee, and which numpy delivers
only when both passes happen to be stable (e.g. on fewer than 16 rows). -/
theorem twoPassSort_insertion_lex (l : List (Int × Int)) :
    (twoPassSort insertionColSort l).Sorted lexLe :=
  insertionSort_lex_sorted (l.insertionSort (leKey (fun p => p.2)))
    (List.sorted_insertionSort (leKey (fun p => p.2)) l)

/-- Membership in the flattened entry list of a pair list. -/
theorem mem_flatPairs {x : Int} {l : List (Int × Int)} :
    x ∈ flatPairs l ↔ ∃ p ∈ l, x = p.1 ∨ x = p.2 := by
  induction l with
  | nil => simp [flatPairs]
  | cons p t ih =>
    show x ∈ p.1 :: p.2 :: flatPairs t ↔ _
    simp only [List.mem_cons, ih]
    constructor
    · rintro (rfl | rfl | ⟨q, hq, hx⟩)
      · exact ⟨p, Or.inl rfl, Or.inl rfl⟩
      · exact ⟨p, Or.inl rfl, Or.inr rfl⟩
      · exact ⟨q, Or.inr hq, hx⟩
    · rintro ⟨q, rfl | hq', hx⟩
      · rcases hx with rfl | rfl
        · exact Or.inl rfl
        · exact Or.inr (Or.inl rfl)
      · exact Or.inr (Or.inr ⟨q, hq', hx⟩)

/-- Claim C1, counterexample to the claim as stated: the claim says the stored
bond list contains no duplicate pairs, but `setBonds` never deduplicates.  On
a 2-atom store, `setBonds([[1, 0], [0, 1]])` succeeds and stores
`[(0, 1), (0, 1)]`: the undirected bond appears twice.  Both rows are equal
after the row swap, so every admissible argsort pass returns this same list;
the evaluation at the insertion-sort instance is therefore the program's
unique result for this input, whatever tie order numpy's quicksort uses. -/
theorem setBonds_duplicates_cex :
    bondsOf (AtomGroup.setBonds insertionColSort { n_atoms := 2 }
      [((1 : Int), (0 : Int)), (0, 1)]) = some [(0, 1), (0, 1)] ∧
    ¬ ([((0 : Int), (1 : Int)), (0, 1)] : List (Int × Int)).Nodup :=
  ⟨by decide, by decide⟩

/-- Claim C1 (amended): after `setBonds(pairs)` succeeds on a store with atom
count `n` and every pair index in `[0, n)`, the stored bond list is produced
by the two-pass argsort composite (sort the swapped rows by second index,
then sort by first index) for whichever admissible argsort implementation
numpy supplies: every stored pair has its smaller index first, the sequence
is sorted non-decreasingly by first index, and the list is a permutation of
the swapped input — duplicate pairs are not removed.  The secondary ordering
by second index is NOT guaranteed: numpy's default argsort is documented as
unstable, so the claimed lexicographic order (and the spec's "stable
composite sort") holds only when the first-column pass is stable, as proved
here for the insertion-sort instance — the algorithm numpy runs on arrays of
fewer than 16 rows. -/
theorem setBonds_canonical (c : ColSort) (st : AtomGroup) (input : List (Int × Int))
    (hne : input ≠ [])
    (hrange : ∀ p ∈ input, 0 ≤ p.1 ∧ p.1 < (st.n_atoms : Int) ∧
                           0 ≤ p.2 ∧ p.2 < (st.n_atoms : Int)) :
    bondsOf (st.setBonds c input) = some (twoPassSort c (input.map pairMin)) ∧
    (twoPassSort c (input.map pairMin)).Sorted (leKey (fun p => p.1)) ∧
    List.Perm (twoPassSort c (input.map pairMin)) (input.map pairMin) ∧
    (∀ p ∈ twoPassSort c (input.map pairMin), p.1 ≤ p.2) ∧
    (twoPassSort insertionColSort (input.map pairMin)).Sorted lexLe := by
  have hempty : input.isEmpty = false := by
    cases input with
    | nil => exact absurd rfl hne
    | cons a t => rfl
  have hneg : (flatPairs input).any (fun x => decide (x < 0)) = false := by
    rw [List.any_eq_false]
    intro x hx
    rcases mem_flatPairs.mp hx with ⟨p, hp, hx'⟩
    rcases hrange p hp with ⟨h1, h2, h3, h4⟩
    simp only [decide_eq_true_eq]
    rcases hx' with rfl | rfl <;> omega
  have hbig : (flatPairs input).any (fun x => decide ((st.n_atoms : Int) ≤ x)) = false := by
    rw [List.any_eq_false]
    intro x hx
    rcases mem_flatPairs.mp hx with ⟨p, hp, hx'⟩
    rcases hrange p hp with ⟨h1, h2, h3, h4⟩
    simp only [decide_eq_true_eq]
    rcases hx' with rfl | rfl <;> omega
  refine ⟨?_, (twoPassSort_fst_sorted_perm c _).1, (twoPassSort_fst_sorted_perm c _).2,
    ?_, twoPassSort_insertion_lex _⟩
  · simp only [AtomGroup.setBonds, hempty, hneg, hbig, Bool.false_eq_true,
      if_false, bondsOf]
  · intro p hp
    have hmem : p ∈ input.map pairMin :=
      ((twoPassSort_fst_sorted_perm c _).2).mem_iff.mp hp
    rcases List.mem_map.mp hmem with ⟨q, hq, rfl⟩
    exact min_le_max

/-- Witness for `setBonds_canonical` at the insertion-sort instance and a
concrete input: a 3-atom store with bonds `[[2, 0], [1, 2]]` stores
`[(0, 2), (1, 2)]`. -/
theorem setBonds_canonical_witness :
    bondsOf (AtomGroup.setBonds insertionColSort { n_atoms := 3 }
      [((2 : Int), (0 : Int)), (1, 2)]) =
      some (twoPassSort insertionColSort ([((2 : Int), (0 : Int)), (1, 2)].map pairMin)) ∧
    twoPassSort insertionColSort ([((2 : Int), (0 : Int)), (1, 2)].map pairMin) =
      [(0, 2), (1, 2)] := by
  have h := setBonds_canonical insertionColSort { n_atoms := 3 } [(2, 0), (1, 2)]
    (by decide) (by decide)
  exact ⟨h.1, by decide⟩

/-- A registered mutable field descriptor: the parts of a Field Registry entry
that the generated setter closes over (`field.var`, `field.dtype`,
`field.ndim`, `field.none`).  `clears` tells whether assigning the field
invalidates a dependent cache attribute (the `none` slot of the descriptor;
for the serial-number field this is the serial-index cache `_sn2i`, which is
the cache slot modelled here). -/
structure FieldDesc where
  var : String
  dtype : DType
  ndim : Nat
  clears : Bool
  deriving Repr, DecidableEq

/-- Input to a generated field setter: a Python list (converted with
`np.array(array, dtype)`), an ndarray, or a value of any other type — which
still answers `len()` before failing the isinstance check, as the source
calls `len(array)` first. -/
inductive SetInput where
  | pylist (ndim : Nat) (rows : List Row)
  | nd (a : DataArr)
  | otherWithLen (n : Nat)
  deriving Repr, DecidableEq

/-- `len(array)` of a setter input. -/
def SetInput.len : SetInput → Nat
  | .pylist _ rows => rows.length
  | .nd a => a.vals.length
  | .otherWithLen n => n

/-- Type conversion and storing part of the generated setter (everything after
the length check, lines 99-114 of the source).  A Python list converts via
`np.array(array, dtype)`; an ndarray must match the declared dimensionality
and is converted with `astype` when its dtype differs (payloads are coded as
integers, so the conversion itself cannot fail in this embedding); any other
value fails the isinstance chain with a `TypeError`. -/
def fieldStoreData (f : FieldDesc) (st : AtomGroup) (input : SetInput) :
    Except (PyErr × AtomGroup) AtomGroup :=
  match input with
  | .pylist nd rows =>
    .ok { st with data := setAssoc st.data f.var ⟨f.dtype, nd, rows⟩,
                  sn2i := if f.clears then none else st.sn2i }
  | .nd a =>
    if a.ndim ≠ f.ndim then
      .error (.valueError "array dimensionality mismatch", st)
    else
      .ok { st with data := setAssoc st.data f.var { a with dtype := f.dtype },
                    sn2i := if f.clears then none else st.sn2i }
  | .otherWithLen _ => .error (.typeError "array must be an ndarray or a list", st)

/-- The field setter generated by `AtomGroupMeta` (lines 92-118 of the
source): if the store's atom count is unset (0), `len(array)` becomes the atom
count — this commits even if a later check raises; otherwise a length
different from the atom count fails with the length-mismatch `ValueError`
before any mutation. -/
def fieldSetData (f : FieldDesc) (st : AtomGroup) (input : SetInput) :
    Except (PyErr × AtomGroup) AtomGroup :=
  if st.n_atoms = 0 then
    fieldStoreData f { st with n_atoms := input.len } input
  else if input.len ≠ st.n_atoms then
    .error (.valueError "length of array must match numAtoms", st)
  else
    fieldStoreData f st input

/-- The atom count of the store a successful setter call returns. -/
def atomCountOf (r : Except (PyErr × AtomGroup) AtomGroup) : Option Nat :=
  match r with
  | .ok s => some s.n_atoms
  | .error _ => none

/-- Claim C5: for every registered mutable field, calling the generated setter
with an array of length `n > 0` on a store whose atom count is unset (0)
succeeds and fixes the atom count to `n` — both for Python-list and for
well-shaped ndarray input — and on a store whose atom count is already fixed,
any setter call whose input length differs fails with the length-mismatch
`ValueError`, leaving the store (in particular its atom count) unchanged. -/
theorem fieldSetData_fixes_count :
    (∀ (f : FieldDesc) (st : AtomGroup) (nd : Nat) (rows : List Row),
       st.n_atoms = 0 → 0 < rows.length →
       atomCountOf (fieldSetData f st (.pylist nd rows)) = some rows.length) ∧
    (∀ (f : FieldDesc) (st : AtomGroup) (a : DataArr),
       st.n_atoms = 0 → 0 < a.vals.length → a.ndim = f.ndim →
       atomCountOf (fieldSetData f st (.nd a)) = some a.vals.length) ∧
    (∀ (f : FieldDesc) (st : AtomGroup) (input : SetInput),
       0 < st.n_atoms → SetInput.len input ≠ st.n_atoms →
       fieldSetData f st (input) =
         .error (.valueError "length of array must match numAtoms", st)) := by
  refine ⟨?_, ?_, ?_⟩
  · intro f st nd rows h0 _
    simp [fieldSetData, fieldStoreData, h0, atomCountOf, SetInput.len]
  · intro f st a h0 _ hnd
    simp [fieldSetData, fieldStoreData, h0, hnd, atomCountOf, SetInput.len]
  · intro f st input hpos hne
    have h0 : ¬ st.n_atoms = 0 := by omega
    simp [fieldSetData, h0, hne]

/-- Witness for `fieldSetData_fixes_count`: setting a 1-dimensional float
field with a 2-element list on an empty store fixes the atom count to 2, and
a subsequent 1-element set fails with the length-mismatch error. -/
theorem fieldSetData_fixes_count_witness :
    atomCountOf (fieldSetData ⟨"betas", .dfloat, 1, false⟩ {} (.pylist 1 [[7], [8]])) =
      some 2 ∧
    fieldSetData ⟨"betas", .dfloat, 1, false⟩ { n_atoms := 2 } (.pylist 1 [[7]]) =
      .error (.valueError "length of array must match numAtoms", { n_atoms := 2 }) := by
  constructor
  · exact fieldSetData_fixes_count.1 ⟨"betas", .dfloat, 1, false⟩ {} 1 [[7], [8]]
      rfl (by decide)
  · exact fieldSetData_fixes_count.2.2 ⟨"betas", .dfloat, 1, false⟩ { n_atoms := 2 }
      (.pylist 1 [[7]]) (by decide) (by decide)

/-- A Python value held in a coordinate-set label slot: `None`, a string, or a
value of another type.  (`setCoords` line 847 of the source stores a
one-element label list itself into the slot; a non-string, non-None value in
a slot, such as that list, is modelled by `pyOther`.) -/
inductive CSLabel where
  | pyNone
  | pyStr (s : String)
  | pyOther
  deriving Repr, DecidableEq

/-- `isinstance(lbl, str)` for a label slot value. -/
def CSLabel.isStr : CSLabel → Bool
  | .pyStr _ => true
  | _ => false

/-- The `label` argument of `setCoords`: `None`, a string, a list (or tuple)
of items, or a value of another type. -/
inductive LabelArg where
  | noneA
  | strA (s : String)
  | listA (ls : List CSLabel)
  | otherA
  deriving Repr, DecidableEq

/-- State of the multi-coordinate-set store `MCAtomGroup`.  Fields mirror the
attributes set in `AtomGroup.__init__` plus the ones `MCAtomGroup.__init__`
adds; `timestamp` and `kdtree` are the per-snapshot version markers and
spatial-index slots, and `clock` is the explicit counter standing in for
`time()`.  `traj` is the lock by an associated trajectory: the attribute
comes from the `MultiCoordset` base class, which is not under `src/`, and is
modelled from the spec (section 4.4: deletion fails while the store is locked
by the external trajectory collaborator) as unlocked by default. -/
structure MCAtomGroup where
  title : String := "Unnamed"
  n_atoms : Nat := 0
  coords : Option CoordStack := none
  n_csets : Nat := 0
  acsi : Option Nat := none
  cslabels : Option (List CSLabel) := some []
  data : List (String × DataArr) := []
  bonds : Option (List (Int × Int)) := none
  bmap : Option (List (List Nat)) := none
  sn2i : Option (List Int) := none
  timestamp : Option (List Nat) := none
  kdtree : Option (List (Option Unit)) := none
  traj : Option Unit := none
  clock : Nat := 0
  deriving Repr, DecidableEq

/-- `MCAtomGroup._setTimeStamp(None)`: reset the version array to the current
time for every snapshot and clear every spatial-index slot. -/
def MCAtomGroup.setTimeStampAll (st : MCAtomGroup) : MCAtomGroup :=
  { st with timestamp := some (List.replicate st.n_csets st.clock),
            kdtree := some (List.replicate st.n_csets none),
            clock := st.clock + 1 }

/-- `MCAtomGroup._setTimeStamp(index)`: bump one snapshot's version marker and
clear its spatial-index slot, leaving the other snapshots' cache state alone.
(In every state where this is reached the arrays exist, so the `getD []`
defaults are never taken.) -/
def MCAtomGroup.setTimeStampOne (st : MCAtomGroup) (i : Nat) : MCAtomGroup :=
  { st with timestamp := some ((st.timestamp.getD []).set i st.clock),
            kdtree := some ((st.kdtree.getD []).set i none),
            clock := st.clock + 1 }

/-- `MCAtomGroup.getCoords`: a copy of the active snapshot's coordinates, or
`None` when no snapshots exist.  (In every reachable state the active index
is set and in range whenever `_coords` is set, so the `getD 0` default and
the partial indexing are never exercised.) -/
def MCAtomGroup.getCoords (st : MCAtomGroup) : Option Frame :=
  match st.coords with
  | none => none
  | some cs => cs[st.acsi.getD 0]?

/-- The `index` argument of `setACSIndex`: an integer or a value of another
type. -/
inductive IdxArg where
  | int (i : Int)
  | notInt
  deriving Repr, DecidableEq

/-- `MCAtomGroup.setACSIndex` (lines 964-976 of the source): when no snapshots
exist the active index is first assigned 0 — a mutation that survives the
error raised afterwards; a non-integer fails with `TypeError`; an integer `i`
succeeds exactly when `n_csets > i` and `n_csets >= |i|`, a negative `i`
being normalized to `i + n_csets`. -/
def MCAtomGroup.setACSIndex (st : MCAtomGroup) (index : IdxArg) :
    Except (PyErr × MCAtomGroup) MCAtomGroup :=
  let n := st.n_csets
  let st1 := if n = 0 then { st with acsi := some 0 } else st
  match index with
  | .notInt => .error (.typeError "index must be an integer", st1)
  | .int i =>
    if (n : Int) ≤ i ∨ (n : Int) < |i| then
      .error (.indexError "coordinate set index is out of range", st1)
    else
      .ok { st1 with acsi := some ((if i < 0 then i + n else i).toNat) }

/-- Normalization of a coordinate-set index: a negative index counts from the
end (`index += n_csets`). -/
def normIdx (i : Int) (n : Nat) : Nat :=
  (if i < 0 then i + n else i).toNat

/-- Claim C7: on a multi-snapshot store holding `count > 0` snapshots,
`setACSIndex(i)` succeeds exactly for integers in `[-count, count)`: a
negative `i` is normalized to `i + count`, the active index becomes the
normalized value (nothing else changes), and `getCoords()` afterwards returns
that snapshot; an integer outside the range fails with `IndexError` and a
non-integer with `TypeError`, leaving the store unchanged. -/
theorem setACSIndex_contract (st : MCAtomGroup) (cs : CoordStack)
    (hcs : st.coords = some cs) (hlen : cs.length = st.n_csets)
    (hpos : 0 < st.n_csets) :
    (∀ i : Int, -(st.n_csets : Int) ≤ i → i < (st.n_csets : Int) →
       st.setACSIndex (.int i) = .ok { st with acsi := some (normIdx i st.n_csets) } ∧
       normIdx i st.n_csets < st.n_csets ∧
       ({ st with acsi := some (normIdx i st.n_csets) } : MCAtomGroup).getCoords =
         some (cs.getD (normIdx i st.n_csets) [])) ∧
    (∀ i : Int, i < -(st.n_csets : Int) ∨ (st.n_csets : Int) ≤ i →
       st.setACSIndex (.int i) =
         .error (.indexError "coordinate set index is out of range", st)) ∧
    st.setACSIndex .notInt = .error (.typeError "index must be an integer", st) := by
  have hne : ¬ st.n_csets = 0 := by omega
  refine ⟨?_, ?_, ?_⟩
  · intro i h1 h2
    have habs : ¬ ((st.n_csets : Int) ≤ i ∨ (st.n_csets : Int) < |i|) := by
      rcases le_or_lt 0 i with h | h
      · rw [abs_of_nonneg h]; omega
      · rw [abs_of_neg h]; omega
    have hlt : normIdx i st.n_csets < st.n_csets := by
      unfold normIdx
      split <;> omega
    refine ⟨?_, hlt, ?_⟩
    · simp [MCAtomGroup.setACSIndex, hne, habs, normIdx]
    · have hb : normIdx i st.n_csets < cs.length := by omega
      simp only [MCAtomGroup.getCoords, hcs, Option.getD_some]
      rw [List.getElem?_eq_getElem hb, List.getD_eq_getElem cs [] hb]
  · intro i hi
    have habs : (st.n_csets : Int) ≤ i ∨ (st.n_csets : Int) < |i| := by
      rcases hi with hi | hi
      · right
        have hneg : i < 0 := by omega
        rw [abs_of_neg hneg]; omega
      · exact Or.inl hi
    simp [MCAtomGroup.setACSIndex, hne, habs]
  · simp [MCAtomGroup.setACSIndex, hne]

/-- Witness for `setACSIndex_contract`: a 2-snapshot store of one atom; index
1 selects the second snapshot, index -2 the first, index 2 is out of range,
and a non-integer is rejected. -/
theorem setACSIndex_contract_witness :
    MCAtomGroup.setACSIndex
        { n_atoms := 1, coords := some [[[1, 2, 3]], [[4, 5, 6]]], n_csets := 2,
          acsi := some 0, timestamp := some [0, 0], kdtree := some [none, none],
          clock := 1 } (.int 1) =
      .ok { n_atoms := 1, coords := some [[[1, 2, 3]], [[4, 5, 6]]], n_csets := 2,
            acsi := some 1, timestamp := some [0, 0], kdtree := some [none, none],
            clock := 1 } ∧
    MCAtomGroup.getCoords
        { n_atoms := 1, coords := some [[[1, 2, 3]], [[4, 5, 6]]], n_csets := 2,
          acsi := some 1, timestamp := some [0, 0], kdtree := some [none, none],
          clock := 1 } = some [[4, 5, 6]] ∧
    MCAtomGroup.setACSIndex
        { n_atoms := 1, coords := some [[[1, 2, 3]], [[4, 5, 6]]], n_csets := 2,
          acsi := some 0, timestamp := some [0, 0], kdtree := some [none, none],
          clock := 1 } (.int 2) =
      .error (.indexError "coordinate set index is out of range",
        { n_atoms := 1, coords := some [[[1, 2, 3]], [[4, 5, 6]]], n_csets := 2,
          acsi := some 0, timestamp := some [0, 0], kdtree := some [none, none],
          clock := 1 }) := by
  have h := setACSIndex_contract
    { n_atoms := 1, coords := some [[[1, 2, 3]], [[4, 5, 6]]], n_csets := 2,
      acsi := some 0, timestamp := some [0, 0], kdtree := some [none, none],
      clock := 1 }
    [[[1, 2, 3]], [[4, 5, 6]]] rfl rfl (by decide)
  obtain ⟨hok, -, -⟩ := h.1 1 (by decide) (by decide)
  exact ⟨hok, by decide, h.2.1 2 (by decide)⟩

/-- Claim C10: on a multi-snapshot store holding zero snapshots,
`setACSIndex` always fails — `IndexError` for every integer, `TypeError` for
a non-integer — but the error state has the active index assigned 0: the
failure path mutates the store before raising. -/
theorem setACSIndex_empty_always_fails (st : MCAtomGroup) (h0 : st.n_csets = 0) :
    (∀ i : Int, st.setACSIndex (.int i) =
       .error (.indexError "coordinate set index is out of range",
               { st with acsi := some 0 })) ∧
    st.setACSIndex .notInt =
      .error (.typeError "index must be an integer", { st with acsi := some 0 }) := by
  constructor
  · intro i
    have habs : ((st.n_csets : Int) ≤ i ∨ (st.n_csets : Int) < |i|) := by
      rcases le_or_lt 0 i with h | h
      · left; omega
      · right
        rw [abs_of_neg h]; omega
    simp [MCAtomGroup.setACSIndex, h0, habs]
    omega
  · simp [MCAtomGroup.setACSIndex, h0]

/-- Witness for `setACSIndex_empty_always_fails`: a fresh store, with the
mutated-on-error active index visible in the error state. -/
theorem setACSIndex_empty_always_fails_witness :
    MCAtomGroup.setACSIndex {} (.int 0) =
      .error (.indexError "coordinate set index is out of range",
              { acsi := some 0 }) ∧
    ({} : MCAtomGroup).acsi = none := by
  exact ⟨(setACSIndex_empty_always_fails {} rfl).1 0, rfl⟩

/-- Label handling of `setCoords` lines 805-813 of the source: the assignment
made inside the `self._coords is None` branch.  A `None` or string label is
replicated per snapshot; a list of matching length is assigned as given
(items unchecked here); a mismatched list leaves a warning and `None`
labels. -/
def mcLabelFirst (st : MCAtomGroup) (label : LabelArg) : MCAtomGroup :=
  match label with
  | .noneA => { st with cslabels := some (List.replicate st.n_csets .pyNone) }
  | .strA s => { st with cslabels := some (List.replicate st.n_csets (.pyStr s)) }
  | .listA ls =>
    if ls.length = st.n_csets then
      { st with cslabels := some ls }
    else
      { st with cslabels := some (List.replicate st.n_csets .pyNone) }
  | .otherA => st

/-- Label handling of `setCoords` lines 827-840 of the source: the block run
whenever the local `acsi` variable is still `None` (that is, on the
first-assignment path and on the full-replacement path).  A `None` or string
label replaces all labels; a list of matching length whose items are all
strings is **appended** with `self._cslabels += label` (the `getD []` default
is never taken: this line is reached only with the label list assigned);
anything else leaves a warning and the labels unchanged. -/
def mcLabelAll (st : MCAtomGroup) (label : LabelArg) : MCAtomGroup :=
  match label with
  | .noneA => { st with cslabels := some (List.replicate st.n_csets .pyNone) }
  | .strA s => { st with cslabels := some (List.replicate st.n_csets (.pyStr s)) }
  | .listA ls =>
    if ls.length = st.n_csets then
      if ls.all CSLabel.isStr then
        { st with cslabels := some (st.cslabels.getD [] ++ ls) }
      else st
    else st
  | .otherA => st

/-- Label handling of `setCoords` lines 841-853 of the source: the block run
when the local `acsi` variable was set (single-snapshot replacement) and the
label is not `None`.  A string replaces the active snapshot's label; a
one-element list of a string stores the list itself into the slot (modelled
as the non-string value `pyOther`); anything else leaves a warning and the
labels unchanged. -/
def mcLabelActive (st : MCAtomGroup) (a : Nat) (label : LabelArg) : MCAtomGroup :=
  match label with
  | .noneA => st
  | .strA s => { st with cslabels := some ((st.cslabels.getD []).set a (.pyStr s)) }
  | .listA ls =>
    if ls.length = 1 then
      if (ls.headD .pyNone).isStr then
        { st with cslabels := some ((st.cslabels.getD []).set a .pyOther) }
      else st
    else st
  | .otherA => st

/-- `MCAtomGroup.setCoords` (lines 780-853 of the source).  The input is
validated for the multi-snapshot shape with reshape, so a `[n, 3]` input
arrives as `[1, n, 3]`.  With no snapshot stack yet, the stack is installed,
the active index set to 0 and all cache state re-initialized; with an
existing stack, a 1-snapshot input replaces only the active snapshot's data
and bumps only its version, while a `k > 1` input replaces the stack,
re-initializes all cache state, and **clamps** the active index to
`min(k - 1, old)` (Python 2's `min` of an integer and `None` is `None`, hence
the `Option.map`).  Label handling follows the three blocks above.  (An input
object with a `getCoordsets` method is accepted by the source before
validation; only ndarray inputs are modelled.) -/
def MCAtomGroup.setCoords (st0 : MCAtomGroup) (input : CoordsInput) (label : LabelArg) :
    Except (PyErr × MCAtomGroup) MCAtomGroup :=
  match checkCoordsCset input st0.n_atoms with
  | .error e => .error (e, st0)
  | .ok coordinates =>
    let st1 := if st0.n_atoms = 0 then { st0 with n_atoms := stackAtoms coordinates }
               else st0
    match st1.coords with
    | none =>
      let st2 := MCAtomGroup.setTimeStampAll
        { st1 with coords := some coordinates, n_csets := coordinates.length,
                   acsi := some 0 }
      .ok (mcLabelAll (mcLabelFirst st2 label) label)
    | some old =>
      if coordinates.length = 1 then
        -- the active index is set whenever a stack exists, so `getD 0` is
        -- never the value actually read
        let a := st1.acsi.getD 0
        let st2 := MCAtomGroup.setTimeStampOne
          { st1 with coords := some (old.set a (coordinates.headD [])) } a
        let st3 := match label with
          | .strA s => { st2 with cslabels := some ((st2.cslabels.getD []).set a (.pyStr s)) }
          | _ => st2
        .ok (mcLabelActive st3 a label)
      else
        let st2 := MCAtomGroup.setTimeStampAll
          { st1 with coords := some coordinates, n_csets := coordinates.length,
                     acsi := st1.acsi.map (fun a => min (coordinates.length - 1) a) }
        .ok (mcLabelAll st2 label)

/-- The snapshot selection argument of `delCoordset`: one index or a list of
indices, each possibly negative (counting from the end). -/
inductive DelArg where
  | one (i : Int)
  | many (idx : List Int)
  deriving Repr, DecidableEq

/-- The selected indices as a list. -/
def DelArg.toList : DelArg → List Int
  | .one i => [i]
  | .many idx => idx

/-- `which = np.ones(n_csets, bool); which[index] = False`: clear the mask at
every selected position, failing with `IndexError` on an out-of-range
index. -/
def delMask (n : Nat) (sel : List Int) : Except PyErr (List Bool) :=
  sel.foldlM (fun m i =>
    let j := if i < 0 then i + (n : Int) else i
    if 0 ≤ j ∧ j < (n : Int) then .ok (m.set j.toNat false)
    else .error (.indexError "index out of bounds")) (List.replicate n true)

/-- `MCAtomGroup.delCoordset` (lines 890-915 of the source): fails when no
snapshots exist or the store is locked by a trajectory; otherwise the
positions left `True` in the mask are kept.  When nothing survives, the
snapshot stack, active index, labels and spatial-index slots are reset to the
absent value and the version array to the empty array; otherwise the stack,
labels and spatial-index slots are compacted in lockstep and the active index
reset to 0. -/
def MCAtomGroup.delCoordset (st : MCAtomGroup) (index : DelArg) :
    Except (PyErr × MCAtomGroup) MCAtomGroup :=
  if st.n_csets = 0 then
    .error (.attributeError "coordinates are not set", st)
  else if st.traj.isSome then
    .error (.attributeError "AtomGroup is locked by a trajectory", st)
  else
    match delMask st.n_csets index.toList with
    | .error e => .error (e, st)
    | .ok mask =>
      let which := mask.enum.filterMap (fun p => if p.2 then some p.1 else none)
      if which.isEmpty then
        .ok { st with coords := none, n_csets := 0, acsi := none,
                      cslabels := none, kdtree := none, timestamp := some [] }
      else
        let newcs := which.filterMap (fun i => (st.coords.getD [])[i]?)
        .ok { st with coords := some newcs, n_csets := newcs.length,
                      acsi := some 0,
                      cslabels := some (which.filterMap (fun i => (st.cslabels.getD [])[i]?)),
                      kdtree := some (which.filterMap (fun i => (st.kdtree.getD [])[i]?)),
                      timestamp := some (which.filterMap (fun i => (st.timestamp.getD [])[i]?)) }

/-- The observable snapshot-stack state of a `setCoords` result: coordinate
stack, snapshot count, active index, version markers, spatial-index slots. -/
def mcObs (r : Except (PyErr × MCAtomGroup) MCAtomGroup) :
    Option (Option CoordStack × Nat × Option Nat ×
            Option (List Nat) × Option (List (Option Unit))) :=
  match r with
  | .ok s => some (s.coords, s.n_csets, s.acsi, s.timestamp, s.kdtree)
  | .error _ => none

/-- The label-handling blocks of `setCoords` touch only the label sequence:
every other component of the state is unchanged by `mcLabelAll`. -/
theorem mcLabelAll_proj (st : MCAtomGroup) (label : LabelArg) :
    (mcLabelAll st label).coords = st.coords ∧
    (mcLabelAll st label).n_csets = st.n_csets ∧
    (mcLabelAll st label).acsi = st.acsi ∧
    (mcLabelAll st label).timestamp = st.timestamp ∧
    (mcLabelAll st label).kdtree = st.kdtree := by
  cases label with
  | noneA => exact ⟨rfl, rfl, rfl, rfl, rfl⟩
  | strA s => exact ⟨rfl, rfl, rfl, rfl, rfl⟩
  | otherA => exact ⟨rfl, rfl, rfl, rfl, rfl⟩
  | listA ls =>
    simp only [mcLabelAll]
    split
    · split
      · exact ⟨rfl, rfl, rfl, rfl, rfl⟩
      · exact ⟨rfl, rfl, rfl, rfl, rfl⟩
    · exact ⟨rfl, rfl, rfl, rfl, rfl⟩

/-- `mcLabelActive` touches only the label sequence as well. -/
theorem mcLabelActive_proj (st : MCAtomGroup) (a : Nat) (label : LabelArg) :
    (mcLabelActive st a label).coords = st.coords ∧
    (mcLabelActive st a label).n_csets = st.n_csets ∧
    (mcLabelActive st a label).acsi = st.acsi ∧
    (mcLabelActive st a label).timestamp = st.timestamp ∧
    (mcLabelActive st a label).kdtree = st.kdtree := by
  cases label with
  | noneA => exact ⟨rfl, rfl, rfl, rfl, rfl⟩
  | strA s => exact ⟨rfl, rfl, rfl, rfl, rfl⟩
  | otherA => exact ⟨rfl, rfl, rfl, rfl, rfl⟩
  | listA ls =>
    simp only [mcLabelActive]
    split
    · split
      · exact ⟨rfl, rfl, rfl, rfl, rfl⟩
      · exact ⟨rfl, rfl, rfl, rfl, rfl⟩
    · exact ⟨rfl, rfl, rfl, rfl, rfl⟩

/-- Observation of a successful `setCoords` result through the final
`mcLabelAll` block: the label block changes no observed component. -/
theorem mcObs_ok_labelAll (s : MCAtomGroup) (label : LabelArg) :
    mcObs (.ok (mcLabelAll s label)) =
      some (s.coords, s.n_csets, s.acsi, s.timestamp, s.kdtree) := by
  obtain ⟨h1, h2, h3, h4, h5⟩ := mcLabelAll_proj s label
  simp [mcObs, h1, h2, h3, h4, h5]

/-- Observation of a successful `setCoords` result through the final
`mcLabelActive` block: the label block changes no observed component. -/
theorem mcObs_ok_labelActive (s : MCAtomGroup) (a : Nat) (label : LabelArg) :
    mcObs (.ok (mcLabelActive s a label)) =
      some (s.coords, s.n_csets, s.acsi, s.timestamp, s.kdtree) := by
  obtain ⟨h1, h2, h3, h4, h5⟩ := mcLabelActive_proj s a label
  simp [mcObs, h1, h2, h3, h4, h5]

/-- Claim C4, counterexample to the claim as stated: the claim says a
multi-snapshot `setCoords` with `k > 1` snapshots resets the active index to
0, but the source (line 825) writes `self._acsi = min(self._n_csets - 1,
self._acsi)`.  On a 2-snapshot store with active index 1, replacing the stack
with 2 new snapshots leaves the active index at 1, not 0. -/
theorem setCoords_no_reset_cex :
    mcObs (MCAtomGroup.setCoords
      { n_atoms := 1, coords := some [[[1, 2, 3]], [[4, 5, 6]]], n_csets := 2,
        acsi := some 1, cslabels := some [.pyNone, .pyNone],
        timestamp := some [0, 0], kdtree := some [none, none], clock := 1 }
      (.rank3 [[[7, 8, 9]], [[10, 11, 12]]]) .noneA) =
      some (some [[[7, 8, 9]], [[10, 11, 12]]], 2, some 1, some [1, 1],
            some [none, none]) ∧
    (1 : Nat) ≠ 0 := by
  exact ⟨rfl, by decide⟩

/-- Claim C4 (amended): on a multi-snapshot store that already has snapshots,
`setCoords` with a `[k, n_atoms, 3]` array, `k > 1`, replaces the entire
snapshot stack, sets the active index to `min(k - 1, previous index)` —
clamping it into range rather than resetting it to 0 (it becomes 0 only when
no snapshots existed before the call) — and re-initializes all per-snapshot
cache state (version markers and spatial-index slots); a call with shape
`[n_atoms, 3]` or `[1, n_atoms, 3]` replaces only the active snapshot's data
and bumps only that snapshot's version marker and spatial-index slot.  All of
this holds for every `label` argument. -/
theorem setCoords_replace_amended (st : MCAtomGroup) (cs : CoordStack)
    (ts : List Nat) (kd : List (Option Unit)) (a : Nat)
    (hcs : st.coords = some cs) (hts : st.timestamp = some ts)
    (hkd : st.kdtree = some kd) (hacsi : st.acsi = some a)
    (hn : st.n_atoms ≠ 0) (hlen : cs.length = st.n_csets) (ha : a < st.n_csets) :
    (∀ (stack : CoordStack) (label : LabelArg),
       stackOk stack = true → stackAtoms stack = st.n_atoms → 2 ≤ stack.length →
       mcObs (st.setCoords (.rank3 stack) label) =
         some (some stack, stack.length, some (min (stack.length - 1) a),
               some (List.replicate stack.length st.clock),
               some (List.replicate stack.length none))) ∧
    (∀ (f : Frame) (label : LabelArg),
       frameOk f = true → f.length = st.n_atoms →
       mcObs (st.setCoords (.rank2 f) label) =
         some (some (cs.set a f), st.n_csets, some a,
               some (ts.set a st.clock), some (kd.set a none)) ∧
       mcObs (st.setCoords (.rank3 [f]) label) =
         some (some (cs.set a f), st.n_csets, some a,
               some (ts.set a st.clock), some (kd.set a none))) := by
  constructor
  · intro stack label hok hatoms hk
    have hchk : checkCoordsCset (.rank3 stack) st.n_atoms = .ok stack := by
      simp [checkCoordsCset, hok, hatoms]
    have hk1 : ¬ stack.length = 1 := by omega
    simp only [MCAtomGroup.setCoords, hchk, hn, if_false, hcs, hk1, reduceIte,
      hacsi, Option.map_some]
    rw [mcObs_ok_labelAll]
    simp [MCAtomGroup.setTimeStampAll]
  · intro f label hok hflen
    have hchk2 : checkCoordsCset (.rank2 f) st.n_atoms = .ok [f] := by
      simp [checkCoordsCset, hok, hflen]
    have hchk3 : checkCoordsCset (.rank3 [f]) st.n_atoms = .ok [f] := by
      simp [checkCoordsCset, stackOk, stackAtoms, hok, hflen]
    have hmain : ∀ input, checkCoordsCset input st.n_atoms = .ok [f] →
        mcObs (st.setCoords input label) =
          some (some (cs.set a f), st.n_csets, some a,
                some (ts.set a st.clock), some (kd.set a none)) := by
      intro input hchk
      simp only [MCAtomGroup.setCoords, hchk, hn, if_false, hcs, hacsi,
        List.length_singleton, reduceIte, Option.getD_some, List.headD_cons]
      cases label <;>
        (rw [mcObs_ok_labelActive]
         simp [MCAtomGroup.setTimeStampOne, hts, hkd])
    exact ⟨hmain (.rank2 f) hchk2, hmain (.rank3 [f]) hchk3⟩

/-- Witness for `setCoords_replace_amended`: a 2-snapshot, 1-atom store with
active index 1.  A 2-snapshot replacement keeps the active index at 1 and
resets both cache slots; a `[1, 3]` input replaces only snapshot 1 and bumps
only its version marker. -/
theorem setCoords_replace_amended_witness :
    mcObs (MCAtomGroup.setCoords
      { n_atoms := 1, coords := some [[[1, 2, 3]], [[4, 5, 6]]], n_csets := 2,
        acsi := some 1, cslabels := some [.pyNone, .pyNone],
        timestamp := some [0, 0], kdtree := some [none, none], clock := 1 }
      (.rank3 [[[7, 8, 9]], [[10, 11, 12]]]) .noneA) =
      some (some [[[7, 8, 9]], [[10, 11, 12]]], 2, some 1, some [1, 1],
            some [none, none]) ∧
    mcObs (MCAtomGroup.setCoords
      { n_atoms := 1, coords := some [[[1, 2, 3]], [[4, 5, 6]]], n_csets := 2,
        acsi := some 1, cslabels := some [.pyNone, .pyNone],
        timestamp := some [0, 0], kdtree := some [none, none], clock := 1 }
      (.rank2 [[9, 9, 9]]) .noneA) =
      some (some [[[1, 2, 3]], [[9, 9, 9]]], 2, some 1, some [0, 1],
            some [none, none]) := by
  have h := setCoords_replace_amended
    { n_atoms := 1, coords := some [[[1, 2, 3]], [[4, 5, 6]]], n_csets := 2,
      acsi := some 1, cslabels := some [.pyNone, .pyNone],
      timestamp := some [0, 0], kdtree := some [none, none], clock := 1 }
    [[[1, 2, 3]], [[4, 5, 6]]] [0, 0] [none, none] 1
    rfl rfl rfl rfl (by decide) (by decide) (by decide)
  exact ⟨h.1 [[[7, 8, 9]], [[10, 11, 12]]] .noneA (by decide) (by decide) (by decide),
         (h.2 [[9, 9, 9]] .noneA (by decide) (by decide)).1⟩

/-- The lockstep observation of a successful multi-snapshot operation: the
snapshot count together with the length of the label sequence. -/
def mcLockstep (r : Except (PyErr × MCAtomGroup) MCAtomGroup) : Option (Nat × Nat) :=
  match r with
  | .ok s => some (s.n_csets, (s.cslabels.getD []).length)
  | .error _ => none

/-- Claim C8: the lockstep invariant `len(snapshot_labels) == len(snapshots)`
is broken by a successful operation.  On a fresh multi-snapshot store,
`setCoords` with one snapshot and the matching all-string label list `['a']`
first assigns the labels (source line 809) and then appends the same list
again with `self._cslabels += label` (source line 833, reached because the
local `acsi` variable is still `None` on the first-assignment path): the call
succeeds with 1 snapshot but 2 labels. -/
theorem setCoords_label_lockstep_bug :
    mcLockstep (MCAtomGroup.setCoords {} (.rank3 [[[0, 0, 0]]])
      (.listA [.pyStr "a"])) = some (1, 2) ∧ (1 : Nat) ≠ 2 := by
  exact ⟨rfl, by decide⟩

/-- Claim C9: deleting every snapshot of an unlocked multi-snapshot store
resets the snapshot stack, the active index, the label sequence and the
spatial-index slots to the absent value, the version array to the empty
array, and a subsequent `getCoords()` returns the absent value.  The
hypothesis `delMask ... = replicate false` states that the index selection
removes all snapshots. -/
theorem delCoordset_all_resets (st : MCAtomGroup) (sel : DelArg)
    (hc : 0 < st.n_csets) (htraj : st.traj = none)
    (hmask : delMask st.n_csets sel.toList = .ok (List.replicate st.n_csets false)) :
    st.delCoordset sel =
      .ok { st with coords := none, n_csets := 0, acsi := none,
                    cslabels := none, kdtree := none, timestamp := some [] } ∧
    MCAtomGroup.getCoords
      { st with coords := none, n_csets := 0, acsi := none,
                cslabels := none, kdtree := none, timestamp := some [] } = none := by
  have hc0 : ¬ st.n_csets = 0 := by omega
  have hwhich : ∀ (k : Nat) (l : List Bool), (∀ b ∈ l, b = false) →
      (l.enumFrom k).filterMap (fun p => if p.2 then some p.1 else none) = [] := by
    intro k l
    induction l generalizing k with
    | nil => intro _; rfl
    | cons b t ih =>
      intro hb
      have hbf : b = false := hb b (List.mem_cons_self b t)
      simp only [List.enumFrom, List.filterMap, hbf]
      exact ih (k + 1) (fun x hx => hb x (List.mem_cons_of_mem b hx))
  have hrep : (List.replicate st.n_csets false).enum.filterMap
      (fun p => if p.2 then some p.1 else none) = [] := by
    exact hwhich 0 _ (fun b hb => List.eq_of_mem_replicate hb)
  constructor
  · simp only [MCAtomGroup.delCoordset, hc0, if_false, htraj, Option.isSome_none,
      Bool.false_eq_true, hmask, hrep, List.isEmpty_nil, reduceIte]
  · simp [MCAtomGroup.getCoords]

/-- Witness for `delCoordset_all_resets`: deleting snapshots `[0, 1]` of a
2-snapshot store empties it and `getCoords` returns the absent value. -/
theorem delCoordset_all_resets_witness :
    MCAtomGroup.delCoordset
      { n_atoms := 1, coords := some [[[1, 2, 3]], [[4, 5, 6]]], n_csets := 2,
        acsi := some 0, cslabels := some [.pyNone, .pyNone],
        timestamp := some [0, 0], kdtree := some [none, none], clock := 1 }
      (.many [0, 1]) =
      .ok { n_atoms := 1, coords := none, n_csets := 0, acsi := none,
            cslabels := none, timestamp := some [], kdtree := none, clock := 1 } ∧
    MCAtomGroup.getCoords
      { n_atoms := 1, coords := none, n_csets := 0, acsi := none,
        cslabels := none, timestamp := some [], kdtree := none, clock := 1 } = none := by
  have h := delCoordset_all_resets
    { n_atoms := 1, coords := some [[[1, 2, 3]], [[4, 5, 6]]], n_csets := 2,
      acsi := some 0, cslabels := some [.pyNone, .pyNone],
      timestamp := some [0, 0], kdtree := some [none, none], clock := 1 }
    (.many [0, 1]) (by decide) rfl rfl
  exact ⟨h.1, h.2⟩

/-- `arr[:, indices]` on a rank-2 array: select columns, normalizing negative
column indices and failing on out-of-range ones (`ncols` is the array's
second shape entry; validated coordinate arrays have all rows of that
length). -/
def sliceCols (m : Frame) (idx : List Int) : Except PyErr Frame :=
  let ncols := (m.headD []).length
  m.mapM (fun r => idx.mapM (fun c =>
    let j := if c < 0 then c + (ncols : Int) else c
    if 0 ≤ j ∧ j < (ncols : Int) then .ok (r.getD j.toNat 0)
    else .error (.indexError "index is out of bounds")))

/-- `arr[indices]` on the atom axis: select rows, normalizing negative
indices and failing on out-of-range ones. -/
def sliceRows (rows : List Row) (idx : List Int) : Except PyErr (List Row) :=
  idx.mapM (fun i =>
    let j := if i < 0 then i + (rows.length : Int) else i
    if 0 ≤ j ∧ j < (rows.length : Int) then .ok (rows.getD j.toNat [])
    else .error (.indexError "index is out of bounds"))

/-- The data-copy loop of `AtomGroup.copy` (lines 409-416 of the source): the
derived `numbonds` entry is skipped, every other present array is cloned
(full copy) or sliced by the index array. -/
def copyData : List (String × DataArr) → Option (List Int) →
    Except PyErr (List (String × DataArr))
  | [], _ => .ok []
  | (k, v) :: rest, idx =>
    if k = "numbonds" then copyData rest idx
    else match idx with
      | none => (copyData rest none).map (fun r => (k, v) :: r)
      | some idxs =>
        match sliceRows v.vals idxs with
        | .error e => .error e
        | .ok rows =>
          (copyData rest (some idxs)).map (fun r => (k, ⟨v.dtype, v.ndim, rows⟩) :: r)

/-- Modelled from the spec: `trimBonds(bonds, keep)` (defined in `bond.py`,
which is not under `src/`; spec section 4.3): map each kept old index to its
dense position in `keep`, retain a pair only when both endpoints are kept,
remap the retained pairs, and return the absent value when no bond
survives. -/
def trimBonds (bonds : List (Int × Int)) (keep : List Int) :
    Option (List (Int × Int)) :=
  let kept := bonds.filterMap (fun p =>
    match keep.indexOf? p.1, keep.indexOf? p.2 with
    | some x, some y => some ((x : Int), (y : Int))
    | _, _ => none)
  if kept.isEmpty then none else some kept

/-- The `which` argument of `AtomGroup.copy`: the full-copy `None`, a single
index, or an index list.  (Selection strings and view objects resolve through
the external selection collaborator and are not modelled.) -/
inductive CopyArg where
  | noneW
  | intW (i : Int)
  | idxW (idx : List Int)
  deriving Repr, DecidableEq

/-- The tail of `AtomGroup.copy` after coordinates are in place (lines
409-430 of the source): copy or slice the data arrays, then execute
`newmol._cslabels = list(self._cslabels)` (line 418).  Modelled from the
spec for the part outside `src/`: the single-snapshot store's data model
(spec section 3) carries no snapshot-label state and the base classes that
could provide the `_cslabels` attribute are not under `src/`, so on a
single-snapshot store this access fails with `AttributeError` — the bond
trimming below it (via `trimBonds` and `setBonds`) is therefore never
reached on this class. -/
def agCopyRest (st : AtomGroup) (newmol : AtomGroup) (indices : Option (List Int)) :
    Except PyErr AtomGroup :=
  match copyData st.data indices with
  | .error e => .error e
  | .ok d =>
    let _ := { newmol with data := d }
    .error (.attributeError "AtomGroup object has no attribute _cslabels")

/-- The indexed branches of `AtomGroup.copy` (source line 407-408):
`newmol.setCoords(self._coords[:, indices])` — on the single-snapshot store
this slices axis 1 of the rank-2 `[n_atoms, 3]` array, the coordinate
component axis, not the atom axis. -/
def agCopyIndexed (st : AtomGroup) (newmol : AtomGroup) (idx : List Int) :
    Except PyErr AtomGroup :=
  match st.coords with
  | none => .error (.typeError "NoneType object is not subscriptable")
  | some m =>
    match sliceCols m idx with
    | .error e => .error e
    | .ok sliced =>
      match newmol.setCoords (.rank2 sliced) with
      | .error (e, _) => .error e
      | .ok newmol2 => agCopyRest st newmol2 (some idx)

/-- `AtomGroup.copy` (lines 360-430 of the source) invoked on a
single-snapshot store (`AG = type(self)` is `AtomGroup`).  A raise inside
the method discards the partially built new store and leaves the source
store unchanged, so only the error is reported. -/
def AtomGroup.copy (st : AtomGroup) (which : CopyArg) : Except PyErr AtomGroup :=
  match which with
  | .noneW =>
    match st.coords with
    | none => .error (.attributeError "NoneType object has no attribute copy")
    | some m =>
      match AtomGroup.setCoords { title := st.title } (.rank2 m) with
      | .error (e, _) => .error e
      | .ok newmol => agCopyRest st newmol none
  | .intW i => agCopyIndexed st { title := st.title ++ " index" } [i]
  | .idxW idx => agCopyIndexed st { title := st.title ++ " subset" } idx

/-- Claim C2: evaluation of `AtomGroup.copy` on a single-snapshot store at the
failing inputs.  `copy([1])` on a 2-atom store slices the coordinate array
along the wrong axis — `self._coords[:, [1]]` takes column 1 of the `[2, 3]`
array — and the resulting `[2, 1]` array is rejected by the coordinate
validator; even the full copy `copy(None)` fails, because line 418 reads
`self._cslabels`, which the single-snapshot store does not have.  The claim's
described behaviour (fields and coordinates sliced by `S` along the atom
axis, bonds trimmed) is the specified intent; this class cannot perform it. -/
theorem copy_single_store_bug :
    AtomGroup.copy
      { n_atoms := 2, coords := some [[1, 2, 3], [4, 5, 6]], acsi := some 0,
        timestamp := some 0, clock := 1 } (.idxW [1]) =
      .error (.valueError "coords.shape must be (n_atoms, 3)") ∧
    AtomGroup.copy
      { n_atoms := 2, coords := some [[1, 2, 3], [4, 5, 6]], acsi := some 0,
        timestamp := some 0, clock := 1 } .noneW =
      .error (.attributeError "AtomGroup object has no attribute _cslabels") := by
  exact ⟨rfl, rfl⟩

/-- Modelled from the spec: the read-only marking of the field registry (spec
section 2; the registry table `ATOMIC_ATTRIBUTES` lives outside `src/`).  The
spec names the derived `numbonds` field (section 4.3) as read-only. -/
def isReadonlyField (k : String) : Bool :=
  k == "numbonds"

/-- `np.zeros(arr.shape, arr.dtype)`: an all-zero array of the same shape and
dtype. -/
def zerosLike (a : DataArr) : DataArr :=
  ⟨a.dtype, a.ndim, a.vals.map (fun r => r.map (fun _ => 0))⟩

/-- The data-merge loop of `AtomGroup.__add__` (lines 245-256 of the source):
for every non-read-only key present in either dict, concatenate, substituting
`np.zeros(this.shape, this.dtype)` for a missing side.  (Python's dict-key
set iterates in arbitrary order; the first-occurrence order of the keys is
used here.) -/
def mergeData (da db : List (String × DataArr)) : List (String × DataArr) :=
  ((da.map Prod.fst ++ db.map Prod.fst).dedup).filterMap (fun k =>
    if isReadonlyField k then none
    else match getAssoc da k, getAssoc db k with
      | some x, some y => some (k, ⟨x.dtype, x.ndim, x.vals ++ y.vals⟩)
      | some x, none => some (k, ⟨x.dtype, x.ndim, x.vals ++ (zerosLike x).vals⟩)
      | none, some y => some (k, ⟨y.dtype, y.ndim, (zerosLike y).vals ++ y.vals⟩)
      | none, none => none)

/-- The right operand of `+`: a multi-coordinate-set store or a value of an
incompatible type. -/
inductive AddOperand where
  | mcag (b : MCAtomGroup)
  | notAG
  deriving Repr, DecidableEq

/-- `AtomGroup.__add__` (lines 227-266 of the source) invoked on
multi-coordinate-set stores.  The merged store is constructed as
`AtomGroup(...)` — the single-snapshot class — and its `setCoords` receives
the rank-3 array `np.concatenate((self._coords[range(n_csets)],
other._coords[range(n_csets)]), 1)`, which the single-snapshot coordinate
validator rejects; the data and bond merging below that call is unreachable
whenever both operands hold coordinates, and without coordinates the
subscription of `None` fails first.  (The unreachable bond canonicalization
threads the argsort model `c` through to `setBonds`.) -/
def mcAdd (c : ColSort) (a : MCAtomGroup) (other : AddOperand) : Except PyErr AtomGroup :=
  match other with
  | .notAG => .error (.typeError
      "can only concatenate two AtomGroups or can deform AtomGroup along a Vector/Mode")
  | .mcag b =>
    let ncs := if a.n_csets ≠ b.n_csets then 1 else a.n_csets
    match a.coords, b.coords with
    | none, _ => .error (.typeError "NoneType object is not subscriptable")
    | _, none => .error (.typeError "NoneType object is not subscriptable")
    | some ca, some cb =>
      if ncs ≤ ca.length ∧ ncs ≤ cb.length then
        let merged := List.zipWith (fun x y => x ++ y) (ca.take ncs) (cb.take ncs)
        match AtomGroup.setCoords { title := a.title ++ " + " ++ b.title }
            (.rank3 merged) with
        | .error (e, _) => .error e
        | .ok new1 =>
          let new2 := { new1 with data := mergeData a.data b.data }
          match a.bonds, b.bonds with
          | some ba, some bb =>
            (match new2.setBonds c
                (ba ++ bb.map (fun p => (p.1 + (a.n_atoms : Int), p.2 + (a.n_atoms : Int)))) with
             | .error (e, _) => .error e
             | .ok new3 => .ok new3)
          | some ba, none =>
            (match new2.setBonds c ba with
             | .error (e, _) => .error e
             | .ok new3 => .ok new3)
          | none, some bb =>
            (match new2.setBonds c (bb.map (fun p => (p.1 + (a.n_atoms : Int), p.2 + (a.n_atoms : Int)))) with
             | .error (e, _) => .error e
             | .ok new3 => .ok new3)
          | none, none => .ok new2
      else .error (.indexError "index is out of bounds")

/-- `AtomGroup.__add__` invoked on single-snapshot stores: the statement after
the isinstance check reads `self._n_csets` (line 234), an attribute the
single-snapshot store never defines.  Modelled from the spec for the part
outside `src/`: the single store's data model (spec section 3) has no
snapshot-stack state and the base classes are not under `src/`, so the access
fails with `AttributeError`. -/
def agAdd (a : AtomGroup) (other : Option AtomGroup) : Except PyErr AtomGroup :=
  match a, other with
  | _, none => .error (.typeError
      "can only concatenate two AtomGroups or can deform AtomGroup along a Vector/Mode")
  | _, some _ => .error (.attributeError "AtomGroup object has no attribute _n_csets")

/-- Claim C3: evaluation of merging at the failing input.  Two
multi-coordinate-set stores of one atom and one snapshot each: the merged
rank-3 coordinate array is handed to the single-snapshot store that `__add__`
constructs, whose validator rejects any rank-3 input, so the merge raises
instead of producing a 2-atom store; on single-snapshot stores the merge
fails even earlier, reading the undefined `_n_csets`; only the claim's
incompatible-operand `TypeError` behaves as stated.  Every evaluation below
fails before any bond handling, so the choice of argsort model is
immaterial; the insertion-sort instance is used. -/
theorem add_merge_bug :
    mcAdd insertionColSort
      { n_atoms := 1, coords := some [[[1, 2, 3]]], n_csets := 1, acsi := some 0,
        timestamp := some [0], kdtree := some [none], clock := 1 }
      (.mcag { n_atoms := 1, coords := some [[[4, 5, 6]]], n_csets := 1,
               acsi := some 0, timestamp := some [0], kdtree := some [none],
               clock := 1 }) =
      .error (.valueError "coords.ndim must be 2") ∧
    agAdd { n_atoms := 1, coords := some [[1, 2, 3]], acsi := some 0,
            timestamp := some 0, clock := 1 }
        (some { n_atoms := 1, coords := some [[4, 5, 6]], acsi := some 0,
                timestamp := some 0, clock := 1 }) =
      .error (.attributeError "AtomGroup object has no attribute _n_csets") ∧
    mcAdd insertionColSort
      { n_atoms := 1, coords := some [[[1, 2, 3]]], n_csets := 1, acsi := some 0,
        timestamp := some [0], kdtree := some [none], clock := 1 } .notAG =
      .error (.typeError
        "can only concatenate two AtomGroups or can deform AtomGroup along a Vector/Mode") := by
  exact ⟨rfl, rfl, rfl⟩

/-- `np.unique`: the ascending list of distinct values. -/
def npUnique (l : List Int) : List Int :=
  (l.dedup).insertionSort (fun a b => a ≤ b)

/-- `sn2i[serials] = np.arange(n_atoms)`: scatter each position's index into
the slot named by its serial value. -/
def scatterIdx (arr : List Int) (serials : List Int) : List Int :=
  serials.enum.foldl (fun acc p => acc.set p.2.toNat (p.1 : Int)) arr

/-- `AtomGroup._getSN2I` (lines 301-317 of the source): the reverse lookup
from serial number to internal index, sized `max(serial) + 1` and filled with
the sentinel -1.  Serial numbers must be set, unique and non-negative.  (The
lazy `_sn2i` cache is cleared whenever the serial field changes and holds
exactly this value when present, so the lookup is modelled by rebuilding; the
serial field itself is passed as the list `serials`.) -/
def buildSN2I (serials : List Int) (n_atoms : Nat) : Except PyErr (List Int) :=
  let u := npUnique serials
  if u.length ≠ n_atoms then
    .error (.valueError "atom serial numbers must be unique")
  else
    match u.head?, u.getLast? with
    | some hd, some mx =>
      if hd < 0 then
        .error (.valueError "atoms must not have negative serial numbers")
      else
        .ok (scatterIdx (List.replicate (mx.toNat + 1) (-1)) serials)
    | _, _ => .error (.indexError "index 0 is out of bounds")

/-- Number of elements of the Python slice `l[a:b:step]` for `0 ≤ a`,
`0 < step`: the positions `a, a+step, ...` below `min b (len l)`. -/
def numSliceElems (a b len step : Nat) : Nat :=
  let e := min b len
  if a < e then (e - a + step - 1) / step else 0

/-- The Python slice `l[a:b:step]` for nonnegative bounds and positive
step. -/
def pySlice (l : List Int) (a b step : Nat) : List Int :=
  (List.range' a (numSliceElems a b l.length step) step).filterMap (fun i => l[i]?)

/-- Result of `getBySerial`: a single-atom view, an index-selection view, or
Python `None`. -/
inductive GBSResult where
  | atomV (i : Int)
  | selV (idx : List Int)
  | noneV
  deriving Repr, DecidableEq

/-- `AtomGroup.getBySerial` (lines 574-610 of the source).  `serial`, `stop`
and `step` are integers here (the `TypeError` branches for non-integer
arguments are not modelled); `stop = none` is the single-serial lookup. -/
def getBySerial (serials : List Int) (n_atoms : Nat) (serial : Int)
    (stop : Option Int) (step : Option Int) : Except PyErr GBSResult :=
  if serial < 0 then
    .error (.valueError "serial must be greater than or equal to zero")
  else
    match buildSN2I serials n_atoms with
    | .error e => .error e
    | .ok sn2i =>
      match stop with
      | none =>
        if serial < (sn2i.length : Int) then
          if sn2i.getD serial.toNat (-1) ≠ -1 then
            .ok (.atomV (sn2i.getD serial.toNat (-1)))
          else .ok .noneV
        else .ok .noneV
      | some stp =>
        if stp ≤ serial then
          .error (.valueError "stop must be greater than serial")
        else
          let stepv := step.getD 1
          if stepv < 1 then
            .error (.valueError "step must be greater than zero")
          else
            .ok (.selV ((pySlice sn2i serial.toNat stp.toNat stepv.toNat).filter
              (fun x => decide (-1 < x))))

/-- The spec-side description of the range lookup, written from the spec's
words: the serials `serial, serial+step, ...` below `stop`, each kept exactly
when an atom ofic that serial exists and then mapped to that atom's internal
index — an ascending-serial enumeration of the atoms whose serials lie in
the stepped range. -/
def specRangeLookup (serials : List Int) (a b step : Nat) : List Int :=
  (List.range' a (if a < b then (b - a + step - 1) / step else 0) step).filterMap
    (fun s : Nat => (serials.findIdx? (fun x => x == (s : Int))).map
      (fun i : Nat => (i : Int)))

/-- In a list sorted ascendingly, every member is at most the last element. -/
theorem sorted_le_getLast {l : List Int}
    (hs : l.Sorted (fun a b : Int => a ≤ b)) :
    ∀ x ∈ l, ∀ h : l ≠ [], x ≤ l.getLast h := by
  induction l with
  | nil => intro x hx; cases hx
  | cons a t ih =>
    intro x hx h
    rw [List.sorted_cons] at hs
    cases t with
    | nil =>
      rcases List.mem_cons.mp hx with rfl | hx'
      · exact le_refl x
      · cases hx'
    | cons b t' =>
      rw [List.getLast_cons (by simp)]
      rcases List.mem_cons.mp hx with rfl | hx'
      · exact le_trans (hs.1 _ (List.getLast_mem (by simp)))
          (le_refl _)
      · exact ih hs.2 x hx' (by simp)

/-- `findIdx?` with an explicit start index finds nothing when the predicate
holds nowhere. -/
theorem findIdx?_start_eq_none (p : Int → Bool) (l : List Int) :
    ∀ k : Nat, (∀ x ∈ l, p x = false) → l.findIdx? p k = none := by
  induction l with
  | nil => intro k _; rfl
  | cons a t ih =>
    intro k h
    rw [List.findIdx?_cons, h a (List.mem_cons_self a t)]
    simp only [Bool.false_eq_true, if_false]
    exact ih (k + 1) (fun x hx => h x (List.mem_cons_of_mem a hx))

/-- One step of the scatter loop: folding the enumerated tail over an
accumulator.  Looking up slot `q` afterwards finds the enumeration index of
the serial `q` when it occurs in the tail, and the prior slot value
otherwise. -/
theorem scatter_getElem (l : List Int) :
    ∀ (k : Nat) (arr : List Int), l.Nodup →
      (∀ s ∈ l, 0 ≤ s ∧ s.toNat < arr.length) →
      ∀ q : Nat, q < arr.length →
      ((l.enumFrom k).foldl (fun acc p => acc.set p.2.toNat (p.1 : Int)) arr)[q]? =
        (match l.findIdx? (fun x => x == (q : Int)) k with
         | some i => some ((i : Nat) : Int)
         | none => arr[q]?) := by
  induction l with
  | nil =>
    intro k arr _ _ q _
    rfl
  | cons s t ih =>
    intro k arr hnd hin q hq
    have hs0 : 0 ≤ s := (hin s (List.mem_cons_self s t)).1
    have hslt : s.toNat < arr.length := (hin s (List.mem_cons_self s t)).2
    have harr' : ((arr.set s.toNat (k : Int))).length = arr.length :=
      List.length_set arr _ _
    have hstep : ((s :: t).enumFrom k).foldl
        (fun acc p => acc.set p.2.toNat (p.1 : Int)) arr =
        (t.enumFrom (k + 1)).foldl (fun acc p => acc.set p.2.toNat (p.1 : Int))
          (arr.set s.toNat (k : Int)) := rfl
    rw [hstep, ih (k + 1) (arr.set s.toNat (k : Int)) hnd.of_cons
      (fun x hx => ⟨(hin x (List.mem_cons_of_mem s hx)).1, by
        rw [harr']; exact (hin x (List.mem_cons_of_mem s hx)).2⟩) q (by rw [harr']; exact hq)]
    rw [List.findIdx?_cons]
    by_cases hsq : s = (q : Int)
    · have hbeq : (s == (q : Int)) = true := by
        exact beq_iff_eq.mpr hsq
      rw [hbeq]
      have hnotin : t.findIdx? (fun x => x == (q : Int)) (k + 1) = none := by
        refine findIdx?_start_eq_none _ t (k + 1) ?_
        intro x hx
        have hxne : x ≠ (q : Int) := by
          intro hxe
          exact (List.nodup_cons.mp hnd).1 (by rw [hsq, ← hxe]; exact hx)
        exact beq_eq_false_iff_ne.mpr hxne
      rw [hnotin]
      have hqn : s.toNat = q := by omega
      simp only [if_true]
      rw [← hqn, List.getElem?_set_eq_of_lt (k : Int) hslt]
    · have hbeq : (s == (q : Int)) = false := beq_eq_false_iff_ne.mpr hsq
      rw [hbeq]
      have hqn : s.toNat ≠ q := by omega
      cases hfi : t.findIdx? (fun x => x == (q : Int)) (k + 1) with
      | some i => simp
      | none => simp [List.getElem?_set_ne hqn]

/-- The scatter loop preserves the array length. -/
theorem scatter_length (l : List Int) :
    ∀ (k : Nat) (arr : List Int),
      ((l.enumFrom k).foldl (fun acc p => acc.set p.2.toNat (p.1 : Int)) arr).length =
        arr.length := by
  induction l with
  | nil => intro k arr; rfl
  | cons s t ih =>
    intro k arr
    have hstep : ((s :: t).enumFrom k).foldl
        (fun acc p => acc.set p.2.toNat (p.1 : Int)) arr =
        (t.enumFrom (k + 1)).foldl (fun acc p => acc.set p.2.toNat (p.1 : Int))
          (arr.set s.toNat (k : Int)) := rfl
    rw [hstep, ih (k + 1) _, List.length_set]

/-- Length of the scatter result. -/
theorem scatterIdx_length (arr l : List Int) :
    (scatterIdx arr l).length = arr.length := by
  have h : scatterIdx arr l =
      (l.enumFrom 0).foldl (fun acc p => acc.set p.2.toNat (p.1 : Int)) arr := rfl
  rw [h, scatter_length]

/-- Slot lookup in the scatter result. -/
theorem scatterIdx_getElem (l arr : List Int) (hnd : l.Nodup)
    (hin : ∀ s ∈ l, 0 ≤ s ∧ s.toNat < arr.length) (q : Nat) (hq : q < arr.length) :
    (scatterIdx arr l)[q]? =
      (match l.findIdx? (fun x => x == (q : Int)) 0 with
       | some i => some ((i : Nat) : Int)
       | none => arr[q]?) := by
  have h : scatterIdx arr l =
      (l.enumFrom 0).foldl (fun acc p => acc.set p.2.toNat (p.1 : Int)) arr := rfl
  rw [h]
  exact scatter_getElem l 0 arr hnd hin q hq

/-- Characterization of `buildSN2I` for a store with `n > 0` unique
non-negative serial numbers: the build succeeds; the array spans
`max(serial) + 1` slots; every serial is at most the maximum; and slot `q`
holds the internal index of the atom whose serial is `q`, or the sentinel -1
when no atom has serial `q`. -/
theorem buildSN2I_spec (serials : List Int) (n : Nat)
    (hlen : serials.length = n) (hnd : serials.Nodup)
    (hpos : ∀ s ∈ serials, 0 ≤ s) (hn : 0 < n) :
    ∃ (A : List Int) (mx : Int), buildSN2I serials n = .ok A ∧
      0 ≤ mx ∧
      A.length = mx.toNat + 1 ∧
      (∀ s ∈ serials, s ≤ mx) ∧
      (∀ q : Nat, q < A.length →
        A[q]? = some (match serials.findIdx? (fun x => x == (q : Int)) with
                      | some i => ((i : Nat) : Int)
                      | none => -1)) := by
  have hdedup : serials.dedup = serials := List.dedup_eq_self.mpr hnd
  have hu : npUnique serials = serials.insertionSort (fun a b : Int => a ≤ b) := by
    rw [npUnique, hdedup]
  have hulen : (npUnique serials).length = n := by
    rw [hu, List.length_insertionSort, hlen]
  have hne : npUnique serials ≠ [] := by
    intro hnil
    rw [hnil] at hulen
    simp at hulen
    omega
  have humem : ∀ x : Int, x ∈ npUnique serials ↔ x ∈ serials := by
    intro x
    rw [hu]
    exact List.mem_insertionSort _
  have hsorted : (npUnique serials).Sorted (fun a b : Int => a ≤ b) := by
    rw [hu]
    exact List.sorted_insertionSort _ serials
  have hmax : ∀ s ∈ serials, s ≤ (npUnique serials).getLast hne := by
    intro s hs
    exact sorted_le_getLast hsorted s ((humem s).mpr hs) hne
  have hmx0 : 0 ≤ (npUnique serials).getLast hne :=
    hpos _ ((humem _).mp (List.getLast_mem hne))
  have hhd : ¬ (npUnique serials).head hne < 0 := by
    have := hpos _ ((humem _).mp (List.head_mem hne))
    omega
  refine ⟨scatterIdx (List.replicate (((npUnique serials).getLast hne).toNat + 1) (-1))
      serials, (npUnique serials).getLast hne, ?_, hmx0, ?_, hmax, ?_⟩
  · rw [buildSN2I]
    simp only [hulen, ne_eq, not_true_eq_false, if_false,
      List.head?_eq_head hne, List.getLast?_eq_getLast _ hne, hhd]
  · rw [scatterIdx_length, List.length_replicate]
  · intro q hq
    rw [scatterIdx_length, List.length_replicate] at hq
    have hin : ∀ s ∈ serials, 0 ≤ s ∧
        s.toNat < (List.replicate (((npUnique serials).getLast hne).toNat + 1)
          ((-1 : Int))).length := by
      intro s hs
      refine ⟨hpos s hs, ?_⟩
      rw [List.length_replicate]
      have h1 := hmax s hs
      have h2 := hpos s hs
      omega
    rw [scatterIdx_getElem serials _ hnd hin q (by rw [List.length_replicate]; exact hq)]
    cases hfi : serials.findIdx? (fun x => x == (q : Int)) 0 with
    | some i => rfl
    | none =>
      simp only [List.getElem?_replicate, hq, if_true]

/-- Every index below the ceiling quotient steps short of `d`. -/
theorem mul_lt_of_lt_ceilDiv (d s j : Nat) (hs : 0 < s) (hd : 0 < d)
    (hj : j < (d + s - 1) / s) : s * j < d := by
  have h1 : (d + s - 1) / s = (d - 1) / s + 1 := by
    have he : d + s - 1 = (d - 1) + s := by omega
    rw [he, Nat.add_div_right _ hs]
  rw [h1] at hj
  have hj' : j ≤ (d - 1) / s := by omega
  have h2 : s * j ≤ s * ((d - 1) / s) := Nat.mul_le_mul_left s hj'
  have h3 : s * ((d - 1) / s) ≤ d - 1 := by
    rw [Nat.mul_comm]
    exact Nat.div_mul_le_self _ _
  omega

/-- The ceiling quotient, scaled back, reaches `d`. -/
theorem ceilDiv_mul_ge (d s : Nat) (hs : 0 < s) (hd : 0 < d) :
    d ≤ s * ((d + s - 1) / s) := by
  have h1 : (d + s - 1) / s = (d - 1) / s + 1 := by
    have he : d + s - 1 = (d - 1) + s := by omega
    rw [he, Nat.add_div_right _ hs]
  rw [h1]
  have h2 := Nat.div_add_mod (d - 1) s
  have h3 : (d - 1) % s < s := Nat.mod_lt _ hs
  have h4 : s * ((d - 1) / s + 1) = s * ((d - 1) / s) + s := by ring
  omega

/-- A serial beyond the maximum occurs nowhere in the serial list. -/
theorem findIdx?_none_of_gt_max (serials : List Int) (mx : Int)
    (hmax : ∀ s ∈ serials, s ≤ mx) (i : Nat) (hi : mx < (i : Int)) :
    serials.findIdx? (fun x => x == (i : Int)) = none := by
  refine findIdx?_start_eq_none _ _ 0 ?_
  intro x hx
  have := hmax x hx
  exact beq_eq_false_iff_ne.mpr (by omega : x ≠ (i : Int))

/-- Reading the reverse-lookup array at in-range positions and discarding the
sentinel election equals the direct present-serial enumeration: the value at a
slot is positive exactly when the serial exists, and then it is that atom's
index. -/
theorem slice_filter_eq (serials A : List Int)
    (hA : ∀ q : Nat, q < A.length →
      A[q]? = some (match serials.findIdx? (fun x => x == (q : Int)) with
                    | some i => ((i : Nat) : Int)
                    | none => -1)) :
    ∀ P : List Nat, (∀ i ∈ P, i < A.length) →
      (P.filterMap (fun i => A[i]?)).filter (fun x => decide (-1 < x)) =
        P.filterMap (fun s : Nat => (serials.findIdx? (fun x => x == (s : Int))).map
          (fun i : Nat => (i : Int))) := by
  intro P
  induction P with
  | nil => intro _; rfl
  | cons i P' ih =>
    intro hP
    have hi : i < A.length := hP i (List.mem_cons_self i P')
    have hrest : ∀ j ∈ P', j < A.length :=
      fun j hj => hP j (List.mem_cons_of_mem i hj)
    rw [List.filterMap_cons, List.filterMap_cons, hA i hi]
    cases hfi : serials.findIdx? (fun x => x == (i : Int)) with
    | some j =>
      have hjpos : decide ((-1 : Int) < ((j : Nat) : Int)) = true := by
        simp only [decide_eq_true_eq]
        omega
      simp only [List.filter_cons, hjpos, if_true, Option.map_some]
      rw [ih hrest]
      rfl
    | none =>
      have hneg : decide ((-1 : Int) < (-1 : Int)) = false := by decide
      simp only [List.filter_cons, hneg, Bool.false_eq_true, if_false, Option.map_none]
      exact ih hrest

/-- The filtered slice of the reverse-lookup array over `[a, b)` stepping by
`stp` equals the spec-side present-serial enumeration: the code-side slice
clamps at the array length `mx + 1`, and the spec-side serials beyond the
maximum occur nowhere, so the clamp loses nothing. -/
theorem rangeLookup_eq (serials A : List Int) (mx : Int)
    (hmx0 : 0 ≤ mx) (hAlen : A.length = mx.toNat + 1)
    (hmax : ∀ s ∈ serials, s ≤ mx)
    (hA : ∀ q : Nat, q < A.length →
      A[q]? = some (match serials.findIdx? (fun x => x == (q : Int)) with
                    | some i => ((i : Nat) : Int)
                    | none => -1))
    (a b stp : Nat) (hab : a < b) (hstp : 0 < stp) :
    (pySlice A a b stp).filter (fun x => decide (-1 < x)) =
      specRangeLookup serials a b stp := by
  have hspecnone : ∀ i : Nat, A.length ≤ i →
      (serials.findIdx? (fun x => x == (i : Int))).map (fun j : Nat => (j : Int)) =
        none := by
    intro i hi
    rw [findIdx?_none_of_gt_max serials mx hmax i (by omega)]
    rfl
  rw [pySlice, specRangeLookup, if_pos hab]
  by_cases hbL : b ≤ A.length
  · have he : numSliceElems a b A.length stp = (b - a + stp - 1) / stp := by
      simp only [numSliceElems, min_eq_left hbL, hab, if_true]
    rw [he]
    refine slice_filter_eq serials A hA _ ?_
    intro i hi
    rcases List.mem_range'.mp hi with ⟨j, hj, rfl⟩
    have := mul_lt_of_lt_ceilDiv (b - a) stp j hstp (by omega) hj
    omega
  · push_neg at hbL
    by_cases haL : a < A.length
    · have he : numSliceElems a b A.length stp = (A.length - a + stp - 1) / stp := by
        simp only [numSliceElems, min_eq_right (le_of_lt hbL), haL, if_true]
      have hn12 : (A.length - a + stp - 1) / stp ≤ (b - a + stp - 1) / stp :=
        Nat.div_le_div_right (by omega)
      have hsplit : List.range' a ((b - a + stp - 1) / stp) stp =
          List.range' a ((A.length - a + stp - 1) / stp) stp ++
            List.range' (a + stp * ((A.length - a + stp - 1) / stp))
              ((b - a + stp - 1) / stp - (A.length - a + stp - 1) / stp) stp := by
        rw [List.range'_append]
        congr 1
        omega
      rw [he, hsplit, List.filterMap_append]
      have htail : (List.range' (a + stp * ((A.length - a + stp - 1) / stp))
          ((b - a + stp - 1) / stp - (A.length - a + stp - 1) / stp) stp).filterMap
          (fun s : Nat => (serials.findIdx? (fun x => x == (s : Int))).map
            (fun i : Nat => (i : Int))) = [] := by
      
        rw [List.filterMap_eq_nil_iff]
        intro i hi
        rcases List.mem_range'.mp hi with ⟨j, hj, rfl⟩
        have hge := ceilDiv_mul_ge (A.length - a) stp hstp (by omega)
        exact hspecnone _ (by omega)
      rw [htail, List.append_nil]
      refine slice_filter_eq serials A hA _ ?_
      intro i hi
      rcases List.mem_range'.mp hi with ⟨j, hj, rfl⟩
      have := mul_lt_of_lt_ceilDiv (A.length - a) stp j hstp (by omega) hj
      omega
    · push_neg at haL
      have he : numSliceElems a b A.length stp = 0 := by
        have hnlt : ¬ a < min b A.length := by omega
        simp only [numSliceElems, hnlt, if_false]
      rw [he]
      have hempty : (List.range' a ((b - a + stp - 1) / stp) stp).filterMap
          (fun s : Nat => (serials.findIdx? (fun x => x == (s : Int))).map
            (fun i : Nat => (i : Int))) = [] := by
        rw [List.filterMap_eq_nil_iff]
        intro i hi
        rcases List.mem_range'.mp hi with ⟨j, hj, rfl⟩
        exact hspecnone _ (by omega)
      rw [hempty]
      rfl

/-- Claim C6, counterexample to the claim as stated: with serials
`[10, 5, 7]` at indices `[0, 1, 2]`, `getBySerial(5, 11)` returns the
selection `[1, 2, 0]` — the indices of serials 5, 7 **and 10** (10 also lies
in `[5, 11)`), in ascending-serial order — not just the indices for serials
5 and 7, and not in ascending internal-index order.  The single lookup
`getBySerial(7)` does return index 2 as claimed. -/
theorem getBySerial_example_cex :
    getBySerial [10, 5, 7] 3 5 (some 11) none = .ok (.selV [1, 2, 0]) ∧
    getBySerial [10, 5, 7] 3 7 none none = .ok (.atomV 2) ∧
    ¬ ([(1 : Int), 2, 0] = [1, 2]) ∧
    ¬ List.Sorted (fun x y : Int => x ≤ y) [1, 2, 0] := by
  refine ⟨rfl, rfl, by decide, ?_⟩
  intro h
  rw [List.sorted_cons, List.sorted_cons] at h
  have := h.2.1 0 (by simp)
  omega

/-- Claim C6 (amended): with `n > 0` unique non-negative serial numbers set,
`getBySerial(serial)` returns the size-1 view for the atom whose serial is
`serial`, or the absent value when no atom has it; `getBySerial(serial, stop,
step)` requires `stop > serial` and a positive `step` (failing with
`ValueError` otherwise, `step` defaulting to 1) and returns a view over
exactly the atoms whose serials lie in `[serial, stop)` stepped by `step` and
exist in the store, enumerated in ascending-serial order (not ascending
internal-index order) — so for serials `[10, 5, 7]` at indices `[0, 1, 2]`,
`getBySerial(5, 11)` yields the indices `[1, 2, 0]` for serials 5, 7 and
10. -/
theorem getBySerial_amended (serials : List Int) (n : Nat)
    (hlen : serials.length = n) (hnd : serials.Nodup)
    (hpos : ∀ s ∈ serials, 0 ≤ s) (hn : 0 < n) :
    (∀ serial : Int, 0 ≤ serial →
       getBySerial serials n serial none none =
         .ok (match serials.findIdx? (fun x => x == serial) with
              | some i => .atomV ((i : Nat) : Int)
              | none => .noneV)) ∧
    (∀ a b stp : Nat, a < b → 0 < stp →
       getBySerial serials n (a : Int) (some (b : Int)) (some (stp : Int)) =
         .ok (.selV (specRangeLookup serials a b stp))) ∧
    (∀ a b : Nat, a < b →
       getBySerial serials n (a : Int) (some (b : Int)) none =
         .ok (.selV (specRangeLookup serials a b 1))) ∧
    (∀ serial stp : Int, 0 ≤ serial → stp ≤ serial →
       getBySerial serials n serial (some stp) none =
         .error (.valueError "stop must be greater than serial")) ∧
    (∀ (a b : Nat) (stp : Int), a < b → stp < 1 →
       getBySerial serials n (a : Int) (some (b : Int)) (some stp) =
         .error (.valueError "step must be greater than zero")) := by
  obtain ⟨A, mx, hok, hmx0, hAlen, hmaxs, hAq⟩ :=
    buildSN2I_spec serials n hlen hnd hpos hn
  refine ⟨?_, ?_, ?_, ?_, ?_⟩
  · intro serial hs0
    have hneg : ¬ serial < 0 := by omega
    by_cases hlt : serial < (A.length : Int)
    · have htn : serial.toNat < A.length := by omega
      have hsome := hAq serial.toNat htn
      have hgetd : A.getD serial.toNat (-1) = A[serial.toNat] :=
        List.getD_eq_getElem A (-1) htn
      have hval : A[serial.toNat] =
          (match serials.findIdx? (fun x => x == ((serial.toNat : Nat) : Int)) with
           | some i => ((i : Nat) : Int)
           | none => -1) := by
        rw [List.getElem?_eq_getElem htn] at hsome
        exact Option.some.inj hsome
      have hcast : ((serial.toNat : Nat) : Int) = serial := Int.toNat_of_nonneg hs0
      rw [hcast] at hval
      simp only [getBySerial, hneg, if_false, hok, hlt, if_true, hgetd, hval]
      cases hfi : serials.findIdx? (fun x => x == serial) with
      | some i =>
        have hne : ¬ ((i : Int) = -1) := by omega
        simp [hne]
      | none => simp
    · simp only [getBySerial, hneg, if_false, hok, hlt, if_false]
      have hnone : serials.findIdx? (fun x => x == serial) = none := by
        refine findIdx?_start_eq_none _ _ 0 ?_
        intro x hx
        have h1 := hmaxs x hx
        have h2 : ¬ (x = serial) := by omega
        exact beq_eq_false_iff_ne.mpr h2
      rw [hnone]
  · intro a b stp hab hstp
    have hneg : ¬ ((a : Int) < 0) := by omega
    have hstop : ¬ ((b : Int) ≤ (a : Int)) := by omega
    have hstep : ¬ ((some ((stp : Nat) : Int)).getD 1 < 1) := by
      simp only [Option.getD_some]
      omega
    simp only [getBySerial, hneg, if_false, hok, hstop, hstep, Option.getD_some,
      Int.toNat_natCast]
    rw [rangeLookup_eq serials A mx hmx0 hAlen hmaxs hAq a b stp hab hstp,
      if_neg (by omega : ¬ ((stp : Nat) : Int) < 1)]
  · intro a b hab
    have hneg : ¬ ((a : Int) < 0) := by omega
    have hstop : ¬ ((b : Int) ≤ (a : Int)) := by omega
    have hstep : ¬ ((none : Option Int).getD 1 < 1) := by
      simp only [Option.getD_none]
      omega
    simp only [getBySerial, hneg, if_false, hok, hstop, hstep, Option.getD_none,
      Int.toNat_natCast]
    have h1 : (1 : Int).toNat = 1 := rfl
    rw [h1, rangeLookup_eq serials A mx hmx0 hAlen hmaxs hAq a b 1 hab (by omega),
      if_neg (by omega : ¬ (1 : Int) < 1)]
  · intro serial stp hs0 hle
    have hneg : ¬ serial < 0 := by omega
    simp only [getBySerial, hneg, if_false, hok, hle, if_true]
  · intro a b stp hab hlt1
    have hneg : ¬ ((a : Int) < 0) := by omega
    have hstop : ¬ ((b : Int) ≤ (a : Int)) := by omega
    have hstep : (some stp).getD 1 < 1 := by
      simp only [Option.getD_some]
      omega
    simp only [getBySerial, hneg, if_false, hok, hstop, hstep, Option.getD_some,
      if_true]
    rw [if_pos hlt1]

/-- Witness for `getBySerial_amended` at serials `[10, 5, 7]`: the single
lookup of serial 7, the range lookup over `[5, 11)`, and the evaluation of
the spec-side enumeration to `[1, 2, 0]`. -/
theorem getBySerial_amended_witness :
    getBySerial [10, 5, 7] 3 7 none none = .ok (.atomV 2) ∧
    getBySerial [10, 5, 7] 3 5 (some 11) (some 1) =
      .ok (.selV (specRangeLookup [10, 5, 7] 5 11 1)) ∧
    specRangeLookup [10, 5, 7] 5 11 1 = [1, 2, 0] := by
  have h := getBySerial_amended [10, 5, 7] 3 rfl (by decide) (by decide) (by decide)
  exact ⟨h.1 7 (by decide), h.2.1 5 11 1 (by decide) (by decide), by decide⟩
